import Mathlib

/-!
Shallow embedding of `src/backend/src/music/music.py` (the note/scale
algebra of the musicality repository), together with theorems settling
the frozen claims about it.

Conventions of the embedding:
* Python `Enum` classes become Lean inductive types; the `.value` ordinal
  of `NoteName` is an explicit function, since `Scale.get_scale` compares
  ordinals with `<`.
* The `note_type` field of `Note` is omitted: every operation modelled
  here (`__eq__`, `__hash__`, `get_root_note`, step navigation, scale
  construction, transposition) ignores it, and `Note.copy` drops it.
* Python `list.index` raises `ValueError` when the element is absent; it
  is modelled with `List.findIdx?`, and fallible paths return `Option` /
  `Except`, with `none`/`error` standing for a raised exception.
* Python `%` on integers with a positive modulus agrees with Lean's
  `Int` `%` (`Int.emod`: the result is non-negative), so index
  arithmetic uses `%` on `Int`.
-/

/-- `NOTES_IN_SCALE` constant from the source. -/
def NOTES_IN_SCALE : Nat := 7

/-- `NOTES_IN_OCTAVE` constant from the source. -/
def NOTES_IN_OCTAVE : Nat := 12

/-- Python enum `NoteName` with members A..G (values 1..7). -/
inductive NoteName where
  | A | B | C | D | E | F | G
deriving DecidableEq, Fintype

/-- The `.value` ordinal of a `NoteName` member (A=1 .. G=7). -/
def NoteName.value : NoteName → Nat
  | .A => 1
  | .B => 2
  | .C => 3
  | .D => 4
  | .E => 5
  | .F => 6
  | .G => 7

/-- Python `NoteName(v)` for `v` in 1..7.  Every call site in the source
guards the argument into 1..7 (`x+1 if x < 7 else 1`, `x-1 if x > 1 else 7`),
so the out-of-range branch (a Python `ValueError`) is unreachable; it is
mapped to `.A` here only to keep the function total. -/
def NoteName.ofValue : Nat → NoteName
  | 1 => .A
  | 2 => .B
  | 3 => .C
  | 4 => .D
  | 5 => .E
  | 6 => .F
  | 7 => .G
  | _ => .A

/-- Python enum `NoteAccidental`. -/
inductive NoteAccidental where
  | FLAT | NATURAL | SHARP | DOUBLE_SHARP
deriving DecidableEq, Fintype

/-- Class `Note`: a (letter name, accidental) pair. -/
structure Note where
  note_name : NoteName
  accidental : NoteAccidental
deriving DecidableEq, Fintype

/-- `Note.get_next_note_name`: `NoteName(value + 1 if value < 7 else 1)`. -/
def Note.get_next_note_name (self : Note) : NoteName :=
  NoteName.ofValue (if self.note_name.value < 7 then self.note_name.value + 1 else 1)

/-- `Note.get_root_note`: canonical ("keyboard") spelling of a note. -/
def Note.get_root_note (self : Note) : Note :=
  match self.accidental with
  | .NATURAL => ⟨self.note_name, .NATURAL⟩
  | .FLAT =>
      ⟨NoteName.ofValue (if self.note_name.value > 1 then self.note_name.value - 1 else 7),
       .SHARP⟩
  | .SHARP =>
      if self.note_name = NoteName.B ∨ self.note_name = NoteName.E then
        ⟨NoteName.ofValue (if self.note_name.value < 7 then self.note_name.value + 1 else 1),
         .NATURAL⟩
      else
        ⟨self.note_name, .SHARP⟩
  | .DOUBLE_SHARP =>
      ⟨NoteName.ofValue (if self.note_name.value < 7 then self.note_name.value + 1 else 1),
       .NATURAL⟩

/-- `Note.__eq__`: two Notes compare equal iff their root notes have the
same `note_name` and `accidental`. -/
def Note.noteEq (self other : Note) : Bool :=
  self.get_root_note = other.get_root_note

/-- The tuple Python's `Note.__hash__` feeds to `hash`: the literal
`(note_name, accidental)` fields, not the canonical root.  CPython's
`hash` on tuples of distinct enum members produces distinct values
(collisions are not part of the program's design), so two Notes hash
alike exactly when these tuples coincide. -/
def Note.hashFields (self : Note) : NoteName × NoteAccidental :=
  (self.note_name, self.accidental)

/-- `Note.copy` (the `note_type` field it drops is not modelled). -/
def Note.copy (self : Note) : Note :=
  ⟨self.note_name, self.accidental⟩

/-- `NoteOrdering.get_alphabet_ordering`: the 12-entry chromatic ring,
naturals and sharps only. -/
def alphabet_ordering : List Note :=
  [⟨.A, .NATURAL⟩, ⟨.A, .SHARP⟩, ⟨.B, .NATURAL⟩, ⟨.C, .NATURAL⟩,
   ⟨.C, .SHARP⟩, ⟨.D, .NATURAL⟩, ⟨.D, .SHARP⟩, ⟨.E, .NATURAL⟩,
   ⟨.F, .NATURAL⟩, ⟨.F, .SHARP⟩, ⟨.G, .NATURAL⟩, ⟨.G, .SHARP⟩]

/-- Python `order.index(x)`: first position whose element compares `==`
to `x` (a raised `ValueError` becomes `none`). -/
def listIndex (order : List Note) (x : Note) : Option Nat :=
  order.findIdx? (fun o => Note.noteEq o x)

/-- `Note.get_note_n_steps_away` with the default (alphabet) ordering:
canonicalize, locate in the ring, advance `n` mod ring length. -/
def Note.get_note_n_steps_away (self : Note) (n : Int) : Option Note :=
  let order := alphabet_ordering
  match listIndex order self.get_root_note with
  | none => none
  | some i => order[(((i : Int) + n) % (order.length : Int)).toNat]?

/-- `Note.get_steps_from` with the default ordering:
`(order.index(other.root) - order.index(self.root)) % len(order)`. -/
def Note.get_steps_from (self other : Note) : Option Int :=
  let order := alphabet_ordering
  match listIndex order self.get_root_note, listIndex order other.get_root_note with
  | some i, some j => some (((j : Int) - (i : Int)) % (order.length : Int))
  | _, _ => none

/-- Python enum `ScaleType`. -/
inductive ScaleType where
  | IONIAN | AEOLIAN
deriving DecidableEq, Fintype

/-- Class `Scale`: a start note and a scale type. -/
structure Scale where
  start_note : Note
  scale_type : ScaleType
deriving DecidableEq, Fintype

/-- `Scale.get_scale_formula` (the `else: raise` branch is unreachable on
the two-member enum). -/
def Scale.get_scale_formula (self : Scale) : List Nat :=
  match self.scale_type with
  | .IONIAN => [0, 2, 2, 1, 2, 2, 2]
  | .AEOLIAN => [0, 2, 1, 2, 2, 1, 2]

/-- `Scale.get_scale_formula_cum_sum`:
`[sum(formula[: i + 1]) for i in range(NOTES_IN_SCALE)]`. -/
def Scale.get_scale_formula_cum_sum (self : Scale) : List Nat :=
  (List.range NOTES_IN_SCALE).map (fun i => ((self.get_scale_formula).take (i + 1)).sum)

/-- Python for-loops that build a list from fallible per-element results,
propagating the first raised exception: structural recursion over the
inputs. -/
def listTraverse {α β : Type} (f : α → Option β) : List α → Option (List β)
  | [] => some []
  | x :: xs =>
      match f x, listTraverse f xs with
      | some y, some ys => some (y :: ys)
      | _, _ => none

/-- `Scale.get_basic_scale`: naive chromatic pick at each cumulative
offset. -/
def Scale.get_basic_scale (self : Scale) : Option (List Note) :=
  listTraverse (fun step => self.start_note.get_note_n_steps_away (step : Int))
    self.get_scale_formula_cum_sum

/-- Body of the degree loop in `Scale.get_scale` (degrees 1..6): given the
previous spelled degree and the naive pick, choose the spelling. -/
def Scale.spellNext (prev_note curr_note : Note) : Note :=
  let should_be_note_name := prev_note.get_next_note_name
  if curr_note.note_name = should_be_note_name then
    curr_note
  else
    if should_be_note_name.value < curr_note.note_name.value then
      if should_be_note_name = NoteName.F ∧
          Note.noteEq prev_note ⟨NoteName.E, .SHARP⟩ = true then
        ⟨NoteName.F, .DOUBLE_SHARP⟩
      else if should_be_note_name = NoteName.C ∧
          Note.noteEq prev_note ⟨NoteName.B, .SHARP⟩ = true then
        ⟨NoteName.C, .DOUBLE_SHARP⟩
      else
        ⟨should_be_note_name, .SHARP⟩
    else
      ⟨should_be_note_name, .FLAT⟩

/-- The degree loop of `Scale.get_scale`, spelling each remaining naive
pick from the previously spelled degree. -/
def Scale.spellRest (prev_note : Note) : List Note → List Note
  | [] => []
  | curr :: rest =>
      let n := Scale.spellNext prev_note curr
      n :: Scale.spellRest n rest

/-- `Scale.get_scale`: degree 0 is a copy of the start note; degrees 1..6
are spelled from `basic_scale[1:]` (the basic scale always has exactly 7
entries, so iterating `scale_degree in range(1, 7)` over it is its tail). -/
def Scale.get_scale (self : Scale) : Option (List Note) :=
  (self.get_basic_scale).map
    (fun basic =>
      self.start_note.copy :: Scale.spellRest self.start_note.copy (basic.drop 1))

/-- The pair `(self_scale_order[i], other_scale_order[i])` built by the
dict comprehension in `Scale.get_transpose` (an `IndexError` becomes
`none`). -/
def pairAt (self_scale_order other_scale_order : List Note) (i : Nat) :
    Option (Note × Note) :=
  match self_scale_order[i]?, other_scale_order[i]? with
  | some x, some y => some (x, y)
  | _, _ => none

/-- `Scale.get_transpose`: reject different scale types, else pair the two
scales' degrees positionally for `i in range(NOTES_IN_SCALE)` (the Python
dict comprehension inserts exactly these key-value pairs, in this order;
the 7 keys are spelled degrees with 7 distinct letter names, so no dict
entry ever collides with another). -/
def Scale.get_transpose (self other_scale : Scale) :
    Except String (List (Note × Note)) :=
  if self.scale_type ≠ other_scale.scale_type then
    Except.error "Cannot transpose scales of different types"
  else
    match self.get_scale, other_scale.get_scale with
    | some self_scale_order, some other_scale_order =>
        match listTraverse (pairAt self_scale_order other_scale_order)
            (List.range NOTES_IN_SCALE) with
        | some pairs => Except.ok pairs
        | none => Except.error "IndexError"
    | _, _ => Except.error "ValueError"

/-- Body of the loop in `Scale.transpose_notes_from`: one note moved to
the target scale by its step distance from the original scale's start. -/
def transposeOne (self original_scale : Scale) (note : Note) : Option Note :=
  match original_scale.start_note.get_steps_from note with
  | some steps_from_home_note =>
      self.start_note.get_note_n_steps_away steps_from_home_note
  | none => none

/-- `Scale.transpose_notes_from`: reject different scale types, else map
each note to `self.start_note` advanced by its step distance from
`original_scale.start_note`. -/
def Scale.transpose_notes_from (self original_scale : Scale) (notes : List Note) :
    Except String (List Note) :=
  if original_scale.scale_type ≠ self.scale_type then
    Except.error "Cannot transpose scales of different types"
  else
    match listTraverse (transposeOne self original_scale) notes with
    | some transposed => Except.ok transposed
    | none => Except.error "ValueError"

/-- `True` on `Except.ok`: the operation returned without raising. -/
def isOkE {α : Type} : Except String α → Bool
  | .ok _ => true
  | .error _ => false

/-! ## Helper lemmas -/

theorem listTraverse_isSome {α β : Type} (f : α → Option β) :
    ∀ xs : List α, (∀ x ∈ xs, (f x).isSome = true) →
      ∃ ys, listTraverse f xs = some ys := by
  intro xs
  induction xs with
  | nil => intro _; exact ⟨[], rfl⟩
  | cons x xs ih =>
      intro h
      obtain ⟨y, hy⟩ := Option.isSome_iff_exists.mp (h x (List.mem_cons_self x xs))
      obtain ⟨ys, hys⟩ := ih (fun a ha => h a (List.mem_cons_of_mem x ha))
      exact ⟨y :: ys, by simp [listTraverse, hy, hys]⟩

theorem listTraverse_length {α β : Type} (f : α → Option β) :
    ∀ (xs : List α) (ys : List β), listTraverse f xs = some ys →
      ys.length = xs.length := by
  intro xs
  induction xs with
  | nil =>
      intro ys h
      simp only [listTraverse, Option.some.injEq] at h
      simp [← h]
  | cons x xs ih =>
      intro ys h
      simp only [listTraverse] at h
      cases hfx : f x with
      | none => rw [hfx] at h; simp at h
      | some y =>
          rw [hfx] at h
          cases hrec : listTraverse f xs with
          | none => rw [hrec] at h; simp at h
          | some ys' =>
              rw [hrec] at h
              simp only [Option.some.injEq] at h
              subst h
              simp [ih ys' hrec]

theorem listTraverse_get {α β : Type} (f : α → Option β) :
    ∀ (xs : List α) (ys : List β), listTraverse f xs = some ys →
      ∀ (i : Nat) (hx : i < xs.length) (hy : i < ys.length),
        f (xs.get ⟨i, hx⟩) = some (ys.get ⟨i, hy⟩) := by
  intro xs
  induction xs with
  | nil => intro ys h i hx hy; exact absurd hx (by simp)
  | cons x xs ih =>
      intro ys h i hx hy
      simp only [listTraverse] at h
      cases hfx : f x with
      | none => rw [hfx] at h; simp at h
      | some y =>
          rw [hfx] at h
          cases hrec : listTraverse f xs with
          | none => rw [hrec] at h; simp at h
          | some ys' =>
              rw [hrec] at h
              simp only [Option.some.injEq] at h
              subst h
              cases i with
              | zero => simpa using hfx
              | succ n =>
                  exact ih ys' hrec n (by simpa using hx) (by simpa using hy)

/-- The canonical root of every Note is found in the chromatic ring. -/
theorem root_in_ring (n : Note) :
    (listIndex alphabet_ordering n.get_root_note).isSome = true := by
  revert n; decide

/-- Every entry of the chromatic ring is natural or sharp. -/
theorem ring_acc : ∀ x ∈ alphabet_ordering,
    x.accidental = NoteAccidental.NATURAL ∨ x.accidental = NoteAccidental.SHARP := by
  decide

/-- `get_note_n_steps_away` never raises and lands inside the ring. -/
theorem nsteps_some (n : Note) (k : Int) :
    ∃ c, n.get_note_n_steps_away k = some c ∧ c ∈ alphabet_ordering := by
  obtain ⟨i, hi⟩ := Option.isSome_iff_exists.mp (root_in_ring n)
  have hlt : ((((i : Int) + k) % ((alphabet_ordering.length : Nat) : Int))).toNat <
      alphabet_ordering.length := by
    have h12 : alphabet_ordering.length = 12 := rfl
    rw [h12]
    omega
  refine ⟨alphabet_ordering.get ⟨_, hlt⟩, ?_, List.get_mem _ _ _⟩
  simp only [Note.get_note_n_steps_away, hi]
  rw [List.getElem?_eq_getElem hlt]
  simp [List.get_eq_getElem]

/-- `get_steps_from` never raises. -/
theorem steps_some (a b : Note) : ∃ k, a.get_steps_from b = some k := by
  obtain ⟨i, hi⟩ := Option.isSome_iff_exists.mp (root_in_ring a)
  obtain ⟨j, hj⟩ := Option.isSome_iff_exists.mp (root_in_ring b)
  refine ⟨((j : Int) - (i : Int)) % (alphabet_ordering.length : Int), ?_⟩
  simp only [Note.get_steps_from, hi, hj]

/-- Boolean check that `get_scale` succeeds with exactly 7 notes. -/
def scaleLen7 (s : Scale) : Bool :=
  match s.get_scale with
  | some l => l.length == 7
  | none => false

theorem scaleLen7_all : ∀ s : Scale, scaleLen7 s = true := by decide

/-- `get_scale` always returns 7 notes (no internal lookup ever raises). -/
theorem get_scale_some (s : Scale) : ∃ l, s.get_scale = some l ∧ l.length = 7 := by
  have h := scaleLen7_all s
  unfold scaleLen7 at h
  cases hs : s.get_scale with
  | none => rw [hs] at h; simp at h
  | some l =>
      rw [hs] at h
      simp only [beq_iff_eq] at h
      exact ⟨l, rfl, h⟩

/-- The loop body of `transpose_notes_from` is step distance followed by
step navigation. -/
theorem transposeOne_eq_bind (s o : Scale) (note : Note) :
    transposeOne s o note =
      (o.start_note.get_steps_from note).bind s.start_note.get_note_n_steps_away := by
  cases h : o.start_note.get_steps_from note <;> simp [transposeOne, h]

/-! ## Claims -/

/-- Claim C1 (code bug).  The claim states that whenever `Scale.get_scale`
re-spells a degree on the expected cyclic-successor letter, the accidental
is chosen so that the degree's pitch class (canonical root) equals the
naive chromatic pick's pitch class — i.e. every spelled degree is
canonically equal to the corresponding basic-scale note.  The code
violates this: for `Scale(C, Aeolian)` the naive pick at degree 5 is
G-sharp and the expected letter is A, but the branch comparing raw letter
ordinals (`should_be_note_name.value < curr_note.note_name.value`, here
1 < 7) ignores the G-to-A letter wrap and re-spells the degree as A-sharp
instead of A-flat — a different pitch class.  This theorem evaluates the
code at that failing input: degree 5 of the spelled scale is A-sharp,
degree 5 of the basic scale is G-sharp, and the two are not canonically
equal. -/
theorem C1_spelling_bug :
    (Scale.mk ⟨.C, .NATURAL⟩ .AEOLIAN).get_scale =
      some [⟨.C, .NATURAL⟩, ⟨.D, .NATURAL⟩, ⟨.E, .FLAT⟩, ⟨.F, .NATURAL⟩,
            ⟨.G, .NATURAL⟩, ⟨.A, .SHARP⟩, ⟨.B, .FLAT⟩] ∧
    (Scale.mk ⟨.C, .NATURAL⟩ .AEOLIAN).get_basic_scale =
      some [⟨.C, .NATURAL⟩, ⟨.D, .NATURAL⟩, ⟨.D, .SHARP⟩, ⟨.F, .NATURAL⟩,
            ⟨.G, .NATURAL⟩, ⟨.G, .SHARP⟩, ⟨.A, .SHARP⟩] ∧
    Note.noteEq ⟨.A, .SHARP⟩ ⟨.G, .SHARP⟩ = false :=
  ⟨rfl, rfl, rfl⟩

/-- Claim C2 (code bug).  `Note.__eq__` compares canonical roots, so
D-flat compares equal to C-sharp, but `Note.__hash__` feeds the literal
`(note_name, accidental)` pair to `hash`; the pairs `(D, flat)` and
`(C, sharp)` differ, so the two equal Notes receive different hash
values under CPython's tuple/enum hashing, breaking the
equal-implies-equal-hash contract that dict keys and set membership
require. -/
theorem C2_hash_bug :
    Note.noteEq ⟨.D, .FLAT⟩ ⟨.C, .SHARP⟩ = true ∧
    Note.hashFields ⟨.D, .FLAT⟩ ≠ Note.hashFields ⟨.C, .SHARP⟩ :=
  ⟨rfl, by decide⟩

/-- Claim C3, counterexample: the Ionian scale formula sums to 11, not
the claimed 12. -/
theorem C3_counterexample :
    ¬ ((Scale.mk ⟨.C, .NATURAL⟩ .IONIAN).get_scale_formula.sum = 12) := by
  decide

/-- Claim C3 (corrected).  The 7 entries of `Scale.get_scale_formula` sum
to 11 for Ionian and 10 for Aeolian: the leading 0 stands for the start
degree itself, so the closing step up to the octave is not in the list. -/
theorem C3_amended (s : Scale) :
    s.get_scale_formula.sum = (if s.scale_type = ScaleType.IONIAN then 11 else 10) := by
  obtain ⟨st, ty⟩ := s
  cases ty <;> rfl

/-- Claim C5 (confirmed).  `Scale(C, Ionian).get_transpose(Scale(G#,
Ionian))` is the positional degree-to-degree mapping C to G#, D to A#,
E to B#, F to C#, G to D#, A to E#, B to F-double-sharp. -/
theorem C5_transpose_map :
    (Scale.mk ⟨.C, .NATURAL⟩ .IONIAN).get_transpose (Scale.mk ⟨.G, .SHARP⟩ .IONIAN) =
      Except.ok
        [(⟨.C, .NATURAL⟩, ⟨.G, .SHARP⟩), (⟨.D, .NATURAL⟩, ⟨.A, .SHARP⟩),
         (⟨.E, .NATURAL⟩, ⟨.B, .SHARP⟩), (⟨.F, .NATURAL⟩, ⟨.C, .SHARP⟩),
         (⟨.G, .NATURAL⟩, ⟨.D, .SHARP⟩), (⟨.A, .NATURAL⟩, ⟨.E, .SHARP⟩),
         (⟨.B, .NATURAL⟩, ⟨.F, .DOUBLE_SHARP⟩)] :=
  rfl

/-- Claim C8 (confirmed).  Canonicalization is idempotent up to the
program's canonical Note equality: for every Note (any letter with any
of the four accidentals), `n.get_root_note().get_root_note() ==
n.get_root_note()`. -/
theorem C8_root_idempotent :
    ∀ n : Note, Note.noteEq n.get_root_note.get_root_note n.get_root_note = true := by
  decide

/-- Claim C9, counterexample: for an Ionian scale the last cumulative
value is 11, not the claimed 10. -/
theorem C9_counterexample :
    ¬ ((Scale.mk ⟨.C, .NATURAL⟩ .IONIAN).get_scale_formula_cum_sum.getLast? =
      some 10) := by
  decide

/-- Claim C9 (corrected).  `Scale.get_scale_formula_cum_sum` returns the
7 prefix sums of the scale formula, and the last cumulative value is 11
for Ionian and 10 for Aeolian (not 10 for both modes). -/
theorem C9_amended (s : Scale) :
    s.get_scale_formula_cum_sum.length = 7 ∧
    (∀ k < 7, s.get_scale_formula_cum_sum.getD k 0 =
      ((s.get_scale_formula).take (k + 1)).sum) ∧
    s.get_scale_formula_cum_sum.getLast? =
      some (if s.scale_type = ScaleType.IONIAN then 11 else 10) := by
  obtain ⟨st, ty⟩ := s
  cases ty <;> exact ⟨rfl, fun k hk => by interval_cases k <;> rfl, rfl⟩

/-- Witness for C9 at the concrete scale `Scale(C, Ionian)`. -/
theorem C9_witness :
    (Scale.mk ⟨.C, .NATURAL⟩ .IONIAN).get_scale_formula_cum_sum.length = 7 ∧
    (∀ k < 7, (Scale.mk ⟨.C, .NATURAL⟩ .IONIAN).get_scale_formula_cum_sum.getD k 0 =
      (((Scale.mk ⟨.C, .NATURAL⟩ .IONIAN).get_scale_formula).take (k + 1)).sum) ∧
    (Scale.mk ⟨.C, .NATURAL⟩ .IONIAN).get_scale_formula_cum_sum.getLast? =
      some (if (Scale.mk ⟨.C, .NATURAL⟩ .IONIAN).scale_type = ScaleType.IONIAN
        then 11 else 10) :=
  C9_amended (Scale.mk ⟨.C, .NATURAL⟩ .IONIAN)

/-- `Note.__init__` with the accidental argument left to its default
(`NoteAccidental.NATURAL`). -/
def Note.mkDefault (note_name : NoteName) : Note :=
  ⟨note_name, NoteAccidental.NATURAL⟩

/-- `Scale.__init__` with the scale type argument left to its default
(`ScaleType.IONIAN`). -/
def Scale.mkDefault (start_note : Note) : Scale :=
  ⟨start_note, ScaleType.IONIAN⟩

/-- Claim C10 (confirmed).  A Note constructed with only a letter name is
the natural note for that letter — structurally equal to the explicit
form, hence interchangeable with it in every operation, and in
particular canonically equal to it — and a Scale constructed with only a
start Note has Ionian mode, so its formula is `[0, 2, 2, 1, 2, 2, 2]`. -/
theorem C10_defaults :
    (∀ nm : NoteName, Note.mkDefault nm = ⟨nm, NoteAccidental.NATURAL⟩ ∧
      Note.noteEq (Note.mkDefault nm) ⟨nm, NoteAccidental.NATURAL⟩ = true) ∧
    (∀ n : Note, Scale.mkDefault n = ⟨n, ScaleType.IONIAN⟩ ∧
      (Scale.mkDefault n).get_scale_formula = [0, 2, 2, 1, 2, 2, 2]) :=
  ⟨fun nm => ⟨rfl, by simp [Note.noteEq, Note.mkDefault]⟩, fun n => ⟨rfl, rfl⟩⟩

/-- Claim C4 (confirmed).  For every start Note and every Mode,
`Scale.get_scale` returns exactly 7 Notes; degree 0 carries the start
Note's letter and accidental; each of the 7 letter names appears exactly
once; and each degree's letter is the cyclic successor (A..G, wrapping G
to A, as computed by `Note.get_next_note_name`) of the previous degree's
letter. -/
theorem C4_letter_sequencing (s : Scale) :
    ∃ l, s.get_scale = some l ∧ l.length = 7 ∧ l.head? = some s.start_note ∧
      (∀ nm : NoteName, (l.map Note.note_name).count nm = 1) ∧
      ∀ i < 6, (l.getD (i + 1) ⟨.A, .NATURAL⟩).note_name =
        (l.getD i ⟨.A, .NATURAL⟩).get_next_note_name := by
  obtain ⟨⟨nm, acc⟩, ty⟩ := s
  cases nm <;> cases acc <;> cases ty <;>
    exact ⟨_, rfl, rfl, by decide, by decide, by decide⟩

/-- Witness for C4 at the concrete scale `Scale(C, Ionian)`. -/
theorem C4_witness :
    ∃ l, (Scale.mk ⟨.C, .NATURAL⟩ .IONIAN).get_scale = some l ∧ l.length = 7 ∧
      l.head? = some (Scale.mk ⟨.C, .NATURAL⟩ .IONIAN).start_note ∧
      (∀ nm : NoteName, (l.map Note.note_name).count nm = 1) ∧
      ∀ i < 6, (l.getD (i + 1) ⟨.A, .NATURAL⟩).note_name =
        (l.getD i ⟨.A, .NATURAL⟩).get_next_note_name :=
  C4_letter_sequencing (Scale.mk ⟨.C, .NATURAL⟩ .IONIAN)

/-- Claim C6 (confirmed).  For every same-mode pair of Scales and every
input Note list, `Scale.transpose_notes_from` maps the `i`-th input Note
to `self.start_note` moved forward by that Note's forward circular
chromatic distance from `original_scale.start_note`
(`get_steps_from` followed by `get_note_n_steps_away`), so every
returned Note is an entry of the 12-entry chromatic ring — natural or
sharp spelling, never flat or double-sharp — whatever the input's
spelling; in particular
`Scale(C, Ionian).transpose_notes_from(Scale(G, Ionian), [C, G, C#])`
is `[F, C, F#]`. -/
theorem C6_chromatic_output :
    (∀ (self original : Scale) (notes : List Note),
        original.scale_type = self.scale_type →
        ∃ transposed,
          self.transpose_notes_from original notes = Except.ok transposed ∧
          transposed.length = notes.length ∧
          (∀ (i : Nat) (hn : i < notes.length) (ht : i < transposed.length),
            (original.start_note.get_steps_from (notes.get ⟨i, hn⟩)).bind
              self.start_note.get_note_n_steps_away =
              some (transposed.get ⟨i, ht⟩)) ∧
          ∀ x ∈ transposed, x ∈ alphabet_ordering ∧
            (x.accidental = NoteAccidental.NATURAL ∨
              x.accidental = NoteAccidental.SHARP)) ∧
    (Scale.mk ⟨.C, .NATURAL⟩ .IONIAN).transpose_notes_from
        (Scale.mk ⟨.G, .NATURAL⟩ .IONIAN)
        [⟨.C, .NATURAL⟩, ⟨.G, .NATURAL⟩, ⟨.C, .SHARP⟩] =
      Except.ok [⟨.F, .NATURAL⟩, ⟨.C, .NATURAL⟩, ⟨.F, .SHARP⟩] := by
  constructor
  · intro self original notes hm
    have hsome : ∀ x ∈ notes, ((transposeOne self original) x).isSome = true := by
      intro x _
      obtain ⟨st, hst⟩ := steps_some original.start_note x
      obtain ⟨c, hc, _⟩ := nsteps_some self.start_note st
      simp [transposeOne, hst, hc]
    obtain ⟨l, hl⟩ := listTraverse_isSome _ _ hsome
    have hlen := listTraverse_length _ _ _ hl
    refine ⟨l, ?_, hlen, ?_, ?_⟩
    · simp [Scale.transpose_notes_from, hm, hl]
    · intro i hn ht
      have hpt := listTraverse_get _ _ _ hl i hn ht
      rw [← transposeOne_eq_bind]
      exact hpt
    · intro x hxl
      obtain ⟨⟨i, ht⟩, hget⟩ := List.mem_iff_get.mp hxl
      have hn : i < notes.length := by rw [← hlen]; exact ht
      have hpt := listTraverse_get _ _ _ hl i hn ht
      obtain ⟨st, hst⟩ := steps_some original.start_note (notes.get ⟨i, hn⟩)
      obtain ⟨c, hc, hmem⟩ := nsteps_some self.start_note st
      have hone : transposeOne self original (notes.get ⟨i, hn⟩) = some c := by
        simp only [transposeOne]
        rw [hst]
        exact hc
      rw [hone] at hpt
      have hcx : c = x := by
        injection hpt with h1
        rw [h1, hget]
      rw [← hcx]
      exact ⟨hmem, ring_acc c hmem⟩
  · rfl

/-- Witness for C6: the general statement applied to the concrete scales
`Scale(C, Ionian)`, `Scale(G, Ionian)` and the note list `[C, G, C#]`,
with the same-mode hypothesis discharged. -/
theorem C6_witness :
    ∃ transposed,
      (Scale.mk ⟨.C, .NATURAL⟩ .IONIAN).transpose_notes_from
          (Scale.mk ⟨.G, .NATURAL⟩ .IONIAN)
          [⟨.C, .NATURAL⟩, ⟨.G, .NATURAL⟩, ⟨.C, .SHARP⟩] = Except.ok transposed ∧
      transposed.length =
        ([⟨.C, .NATURAL⟩, ⟨.G, .NATURAL⟩, ⟨.C, .SHARP⟩] : List Note).length ∧
      (∀ (i : Nat)
          (hn : i < ([⟨.C, .NATURAL⟩, ⟨.G, .NATURAL⟩, ⟨.C, .SHARP⟩] : List Note).length)
          (ht : i < transposed.length),
        ((Scale.mk ⟨.G, .NATURAL⟩ .IONIAN).start_note.get_steps_from
            (([⟨.C, .NATURAL⟩, ⟨.G, .NATURAL⟩, ⟨.C, .SHARP⟩] : List Note).get
              ⟨i, hn⟩)).bind
          (Scale.mk ⟨.C, .NATURAL⟩ .IONIAN).start_note.get_note_n_steps_away =
          some (transposed.get ⟨i, ht⟩)) ∧
      ∀ x ∈ transposed, x ∈ alphabet_ordering ∧
        (x.accidental = NoteAccidental.NATURAL ∨
          x.accidental = NoteAccidental.SHARP) :=
  C6_chromatic_output.1 (Scale.mk ⟨.C, .NATURAL⟩ .IONIAN)
    (Scale.mk ⟨.G, .NATURAL⟩ .IONIAN)
    [⟨.C, .NATURAL⟩, ⟨.G, .NATURAL⟩, ⟨.C, .SHARP⟩] rfl

/-- Claim C7 (confirmed).  `Scale.get_transpose` and
`Scale.transpose_notes_from` fail exactly when the two Scales' modes
differ: the returned value is `Except.ok` iff the scale types are equal,
and on `Except.error` no result is produced. -/
theorem C7_mode_gate (s o : Scale) (notes : List Note) :
    (isOkE (s.get_transpose o) = true ↔ s.scale_type = o.scale_type) ∧
    (isOkE (s.transpose_notes_from o notes) = true ↔ o.scale_type = s.scale_type) := by
  constructor
  · by_cases hm : s.scale_type = o.scale_type
    · obtain ⟨a, ha, halen⟩ := get_scale_some s
      obtain ⟨b, hb, hblen⟩ := get_scale_some o
      have hsome : ∀ i ∈ List.range NOTES_IN_SCALE, ((pairAt a b) i).isSome = true := by
        intro i hiR
        have hi7 : i < 7 := by
          simpa [NOTES_IN_SCALE] using List.mem_range.mp hiR
        have hax := List.getElem?_eq_getElem (show i < a.length by omega)
        have hbx := List.getElem?_eq_getElem (show i < b.length by omega)
        simp [pairAt, hax, hbx]
      obtain ⟨pairs, hpairs⟩ := listTraverse_isSome _ _ hsome
      simp [Scale.get_transpose, hm, ha, hb, hpairs, isOkE]
    · simp [Scale.get_transpose, hm, isOkE]
  · by_cases hm : o.scale_type = s.scale_type
    · have hsome : ∀ x ∈ notes, ((transposeOne s o) x).isSome = true := by
        intro x _
        obtain ⟨st, hst⟩ := steps_some o.start_note x
        obtain ⟨c, hc, _⟩ := nsteps_some s.start_note st
        simp [transposeOne, hst, hc]
      obtain ⟨l, hl⟩ := listTraverse_isSome _ _ hsome
      simp [Scale.transpose_notes_from, hm, hl, isOkE]
    · simp [Scale.transpose_notes_from, hm, isOkE]
